import Mathlib

/-!
Verification of the semantic page-search backend (`src/backend/app.py`).

Python strings are modelled as lists of characters (`Str`), the parsed DOM
as an inductive tree (`Node`), and the Flask endpoint `search_content` as a
pure function over an explicit environment (`Env`) supplying the outcomes of
the external effects (HTTP fetch, ChromaDB create/add/query/delete).  The
pure helpers `extract_elements` and `chunk_elements_by_tokens` are embedded
directly from the source.
-/

set_option autoImplicit false

/-- Python strings, modelled as lists of characters. -/
abbrev Str := List Char

/-- Whitespace test used by Python's argument-less `str.split` and `str.strip`. -/
def isWS (c : Char) : Bool := c.isWhitespace

/-- Worker for `pySplit`: scans the string, accumulating the current word in
reverse order in `acc`; whitespace flushes the accumulated word (if any). -/
def pySplitAux : Str → Str → List Str
  | [], acc => if acc.isEmpty then [] else [acc.reverse]
  | c :: s, acc =>
    if isWS c then
      if acc.isEmpty then pySplitAux s [] else acc.reverse :: pySplitAux s []
    else
      pySplitAux s (c :: acc)

/-- Python `text.split()` with no argument: split on runs of whitespace,
discarding empty pieces. -/
def pySplit (s : Str) : List Str := pySplitAux s []

/-- Python `s.strip()`: remove leading and trailing whitespace. -/
def pyStrip (s : Str) : Str := ((s.dropWhile isWS).reverse.dropWhile isWS).reverse

/-- Python `" ".join(ts)`. -/
def joinTokens : List Str → Str
  | [] => []
  | [t] => t
  | t :: t2 :: ts => t ++ ' ' :: joinTokens (t2 :: ts)

/-- Python `"".join(ss)`. -/
def joinStrs : List Str → Str
  | [] => []
  | s :: ss => s ++ joinStrs ss

/-- A parsed DOM tree: element nodes with a tag name and children, and text
nodes.  This is the shape BeautifulSoup exposes to `app.py` (tag name, text
content, serialized markup, children). -/
inductive Node where
  | elem (name : Str) (children : List Node)
  | textNode (s : Str)

/-- Tag name of a node; text nodes have no name. -/
def nodeName : Node → Str
  | .elem n _ => n
  | .textNode _ => []

/-- Children of a node. -/
def childrenOf : Node → List Node
  | .elem _ cs => cs
  | .textNode _ => []

mutual

/-- All descendant text-node strings of a node, in document order
(BeautifulSoup's `_all_strings`). -/
def allStrings : Node → List Str
  | .elem _ cs => allStringsL cs
  | .textNode s => [s]

/-- `allStrings` over a list of siblings. -/
def allStringsL : List Node → List Str
  | [] => []
  | n :: ns => allStrings n ++ allStringsL ns

end

/-- BeautifulSoup `tag.get_text(" ", strip=True)`: strip every descendant
string, drop the empty ones, and join the rest with single spaces. -/
def getText (n : Node) : Str :=
  joinTokens (((allStrings n).map pyStrip).filter (fun s => !s.isEmpty))

mutual

/-- Python `str(tag)`: serialized markup of the node (attributes are not
modelled; no claim inspects markup internally). -/
def serialize : Node → Str
  | .elem n cs => '<' :: (n ++ ['>'] ++ serializeL cs ++ ('<' :: '/' :: (n ++ ['>'])))
  | .textNode s => s

/-- `serialize` over a list of siblings, concatenated. -/
def serializeL : List Node → Str
  | [] => []
  | c :: cs => serialize c ++ serializeL cs

end

mutual

/-- Element descendants of a list of sibling subtrees in pre-order: the
traversal order of BeautifulSoup `find_all(recursive=True)`. -/
def descendantsL : List Node → List Node
  | [] => []
  | n :: ns => subtreeElems n ++ descendantsL ns

/-- A subtree's element nodes in pre-order, including its root when that root
is an element. -/
def subtreeElems : Node → List Node
  | .elem n cs => .elem n cs :: descendantsL cs
  | .textNode _ => []

end

/-- The element nodes strictly below `n`: `n.find_all(recursive=True)`. -/
def rootDescendants (n : Node) : List Node :=
  match n with
  | .elem _ cs => descendantsL cs
  | .textNode _ => []

def scriptStr : Str := ['s', 'c', 'r', 'i', 'p', 't']
def styleStr : Str := ['s', 't', 'y', 'l', 'e']
def noscriptStr : Str := ['n', 'o', 's', 'c', 'r', 'i', 'p', 't']
def headerStr : Str := ['h', 'e', 'a', 'd', 'e', 'r']
def footerStr : Str := ['f', 'o', 'o', 't', 'e', 'r']
def navStr : Str := ['n', 'a', 'v']
def svgStr : Str := ['s', 'v', 'g']
def metaStr : Str := ['m', 'e', 't', 'a']
def linkStr : Str := ['l', 'i', 'n', 'k']
def iframeStr : Str := ['i', 'f', 'r', 'a', 'm', 'e']
def bodyStr : Str := ['b', 'o', 'd', 'y']
def divStr : Str := ['d', 'i', 'v']

/-- The fixed tag blacklist of `extract_elements` (app.py lines 27-30). -/
def blacklist : List Str :=
  [scriptStr, styleStr, noscriptStr, headerStr, footerStr, navStr,
   svgStr, metaStr, linkStr, iframeStr]

/-- One extracted fragment: the dict `{"text": ..., "html": ..., "tag": ...}`
built by `extract_elements` (app.py lines 44-48). -/
structure Element where
  text : Str
  html : Str
  tag : Str
  deriving DecidableEq

/-- The body of the `for tag in body.find_all(recursive=True)` loop of
`extract_elements` applied to one visited element (app.py lines 34-48). -/
def visitElement (tag : Node) : Option Element :=
  if nodeName tag ∈ blacklist then none
  else
    let text := getText tag
    if text.isEmpty then none
    else if (pySplit text).length < 5 then none
    else some ⟨text, serialize tag, nodeName tag⟩

/-- `extract_elements` run from a chosen traversal root (app.py lines 27-50). -/
def extractFrom (body : Node) : List Element :=
  (rootDescendants body).filterMap visitElement

/-- BeautifulSoup `soup.body`: the first `body` element among the soup's
descendants, if any. -/
def findBody (soup : Node) : Option Node :=
  (rootDescendants soup).find? (fun n => nodeName n == bodyStr)

/-- Python `soup.body or soup` (app.py line 25): a found `body` tag with no
contents is falsy (`Tag.__len__` counts children), so it falls back to `soup`. -/
def bodyOf (soup : Node) : Node :=
  match findBody soup with
  | some b => if (childrenOf b).isEmpty then soup else b
  | none => soup

/-- `extract_elements(soup)` (app.py lines 17-50): walk the DOM from
`soup.body or soup` and collect every element that passes the blacklist and
the 5-token floor. -/
def extract_elements (soup : Node) : List Element :=
  extractFrom (bodyOf soup)

/-- One chunk produced by `chunk_elements_by_tokens` (app.py lines 74-78). -/
structure Chunk where
  text : Str
  html : Str
  tag : Str
  deriving DecidableEq

/-- Emit a chunk from the accumulator state (app.py lines 74-78 and 89-93):
texts joined with spaces, markups concatenated, tag fixed to `"div"`. -/
def mkChunk (curTokens : List Str) (curHtml : List Str) : Chunk :=
  ⟨joinTokens curTokens, joinStrs curHtml, divStr⟩

/-- The loop of `chunk_elements_by_tokens` (app.py lines 65-93), carrying the
accumulator `current_tokens` / `current_html` / `token_count` explicitly. -/
def chunkGo (maxTokens : Nat) :
    List Element → List Str → List Str → Nat → List Chunk
  | [], curTokens, curHtml, _ =>
    if curTokens.isEmpty then [] else [mkChunk curTokens curHtml]
  | el :: rest, curTokens, curHtml, tokenCount =>
    let tokens := pySplit el.text
    if tokens.isEmpty then
      chunkGo maxTokens rest curTokens curHtml tokenCount
    else if maxTokens < tokenCount + tokens.length ∧ ¬curTokens.isEmpty then
      mkChunk curTokens curHtml ::
        chunkGo maxTokens rest tokens [el.html] tokens.length
    else
      chunkGo maxTokens rest (curTokens ++ tokens) (curHtml ++ [el.html])
        (tokenCount + tokens.length)

/-- `chunk_elements_by_tokens(elements, max_tokens)` (app.py lines 53-95). -/
def chunk_elements_by_tokens (elements : List Element) (maxTokens : Nat) :
    List Chunk :=
  chunkGo maxTokens elements [] [] 0

/-- One metadata dict stored with a chunk (app.py lines 136-144). -/
structure Meta where
  source : Str
  index : Nat
  tag : Str
  html : Str
  deriving DecidableEq

/-- The metadata list built for the chunks of one request
(app.py lines 136-144). -/
def buildMetadatas (url : Str) (elements : List Chunk) : List Meta :=
  elements.mapIdx (fun i el => ⟨url, i, el.tag, el.html⟩)

/-- The dict returned by `collection.query`; each key may be absent
(`"documents"`, `"metadatas"`, `"distances"`), and when present holds one
inner list per query text.  Scores are opaque numbers the code never
computes with, modelled as integers. -/
structure QueryResults where
  documents : Option (List (List Str))
  metadatas : Option (List (List Meta))
  distances : Option (List (List Int))
  deriving DecidableEq

/-- One formatted response record (app.py lines 169-174). -/
structure SearchResult where
  text : Str
  html : Str
  tag : Str
  score : Int
  deriving DecidableEq

/-- Default `SearchResult` used only as a `getD` fallback in statements. -/
def emptyResult : SearchResult := ⟨[], [], [], 0⟩

/-- Default `Chunk` used only as a `getD` fallback in statements. -/
def emptyChunk : Chunk := ⟨[], [], []⟩

/-- Default `Meta` used only as a `getD` fallback in statements. -/
def emptyMeta : Meta := ⟨[], 0, [], []⟩

/-- Python `meta.get("html", "")` where `meta` may be the empty dict. -/
def metaHtml : Option Meta → Str
  | none => []
  | some m => m.html

/-- Python `meta.get("tag", "")` where `meta` may be the empty dict. -/
def metaTag : Option Meta → Str
  | none => []
  | some m => m.tag

/-- Message of a Python `IndexError` on list indexing. -/
def indexErrStr : Str :=
  ['l', 'i', 's', 't', ' ', 'i', 'n', 'd', 'e', 'x', ' ', 'o', 'u', 't',
   ' ', 'o', 'f', ' ', 'r', 'a', 'n', 'g', 'e']

/-- The error message of the 400 response (app.py line 105). -/
def requiredErr : Str :=
  ['U', 'R', 'L', ' ', 'a', 'n', 'd', ' ', 'Q', 'u', 'e', 'r', 'y', ' ',
   'a', 'r', 'e', ' ', 'r', 'e', 'q', 'u', 'i', 'r', 'e', 'd']

/-- The `for i, doc in enumerate(docs)` loop of the response formatter
(app.py lines 167-174): `metas[i] if i < len(metas) else ` the empty dict is
`metas.getD i none`; `distances[i]` raises `IndexError` when out of range. -/
def formatLoop : List Str → List (Option Meta) → List Int → Nat →
    Except Str (List SearchResult)
  | [], _, _, _ => .ok []
  | doc :: docs, metas, distances, i =>
    match distances.get? i with
    | none => .error indexErrStr
    | some d =>
      match formatLoop docs metas distances (i + 1) with
      | .error e => .error e
      | .ok rest =>
        .ok (⟨doc, metaHtml (metas.getD i none), metaTag (metas.getD i none), d⟩
          :: rest)

/-- The response-formatting block (app.py lines 160-176): pull
`documents[0]`, default missing `metadatas` to empty dicts and missing
`distances` to zeros, then build the record list. -/
def format_results (qr : QueryResults) : Except Str (List SearchResult) :=
  match qr.documents with
  | none => .ok []
  | some dl =>
    match dl with
    | [] => .error indexErrStr
    | docs :: _ =>
      match (match qr.metadatas with
             | some [] => Except.error indexErrStr
             | some (m :: _) => Except.ok (m.map some)
             | none => Except.ok (List.replicate docs.length (none : Option Meta))) with
      | .error e => .error e
      | .ok metas =>
        match (match qr.distances with
               | some [] => Except.error indexErrStr
               | some (t :: _) => Except.ok t
               | none => Except.ok (List.replicate docs.length (0 : Int))) with
        | .error e => .error e
        | .ok distances => formatLoop docs metas distances 0

/-- The set of tags decomposed before extraction (app.py line 113). -/
def pruneSet : List Str := [scriptStr, styleStr, headerStr, footerStr, navStr]

mutual

/-- Effect of the pre-pass `for tag in soup([...]): tag.decompose()` (app.py
lines 113-114) on one node: a matching element is removed together with its
subtree, any other node is kept with its children decomposed. -/
def decomposeN : Node → List Node
  | .elem n gs => if n ∈ pruneSet then [] else [.elem n (decomposeL gs)]
  | .textNode s => [.textNode s]

/-- `decomposeN` over a list of siblings. -/
def decomposeL : List Node → List Node
  | [] => []
  | c :: cs => decomposeN c ++ decomposeL cs

end

/-- The decompose pre-pass applied to the whole soup (app.py lines 113-114);
the soup root itself (the `[document]` object) is never removed. -/
def decompose : Node → Node
  | .elem n cs => .elem n (decomposeL cs)
  | .textNode s => .textNode s

/-- The JSON body of a `/search` request: both fields may be absent. -/
structure SearchRequest where
  url : Option Str
  query : Option Str
  deriving DecidableEq

/-- The three response shapes of `search_content`: `ok` is the 200 response
`{"results": ...}`, `clientError` the 400 response, `serverError` the 500
response, each carrying its error message. -/
inductive Response where
  | ok (results : List SearchResult)
  | clientError (msg : Str)
  | serverError (msg : Str)
  deriving DecidableEq

/-- Observable outcome of one request: the HTTP response together with
whether a fetch was attempted, whether a transient collection was created,
and whether that collection still exists when the response is returned. -/
structure Outcome where
  response : Response
  fetchAttempted : Bool
  collectionCreated : Bool
  collectionExistsAtEnd : Bool
  deriving DecidableEq

/-- Environment of external effects for one request: the result of
`requests.get` + parsing, and of the ChromaDB create/add/query/delete calls
(`queryResult` is a function of the `n_results` argument the code passes). -/
structure Env where
  fetchResult : Except Str Node
  createResult : Except Str Unit
  addResult : Except Str Unit
  queryResult : Nat → Except Str QueryResults
  deleteResult : Except Str Unit

/-- Python falsiness of an optional string (`not url`). -/
def strFalsy : Option Str → Bool
  | none => true
  | some s => s.isEmpty

/-- The `/search` endpoint `search_content` (app.py lines 98-180), with every
external effect drawn from `env`.  The `try` block's exception handler is the
propagation of the first `.error` to a 500 response; note that
`delete_collection` (line 158) runs only after a successful `query`, so a
failure in `add` or `query` leaves the created collection in place. -/
def search_content (req : SearchRequest) (env : Env) : Outcome :=
  if strFalsy req.url || strFalsy req.query then
    { response := .clientError requiredErr, fetchAttempted := false,
      collectionCreated := false, collectionExistsAtEnd := false }
  else
    match env.fetchResult with
    | .error e =>
      { response := .serverError e, fetchAttempted := true,
        collectionCreated := false, collectionExistsAtEnd := false }
    | .ok soup =>
      let rawElements := extract_elements (decompose soup)
      let elements := chunk_elements_by_tokens rawElements 500
      if elements.isEmpty then
        { response := .ok [], fetchAttempted := true,
          collectionCreated := false, collectionExistsAtEnd := false }
      else
        match env.createResult with
        | .error e =>
          { response := .serverError e, fetchAttempted := true,
            collectionCreated := false, collectionExistsAtEnd := false }
        | .ok _ =>
          match env.addResult with
          | .error e =>
            { response := .serverError e, fetchAttempted := true,
              collectionCreated := true, collectionExistsAtEnd := true }
          | .ok _ =>
            match env.queryResult (min 10 elements.length) with
            | .error e =>
              { response := .serverError e, fetchAttempted := true,
                collectionCreated := true, collectionExistsAtEnd := true }
            | .ok qr =>
              match env.deleteResult with
              | .error e =>
                { response := .serverError e, fetchAttempted := true,
                  collectionCreated := true, collectionExistsAtEnd := true }
              | .ok _ =>
                match format_results qr with
                | .error e =>
                  { response := .serverError e, fetchAttempted := true,
                    collectionCreated := true, collectionExistsAtEnd := false }
                | .ok formatted =>
                  { response := .ok formatted, fetchAttempted := true,
                    collectionCreated := true, collectionExistsAtEnd := false }

/-- A whitespace-free, non-empty word: the shape of every token produced by
`pySplit`. -/
def ValidTok (t : Str) : Prop := t ≠ [] ∧ ∀ c ∈ t, isWS c = false

theorem pySplitAux_noWS (t : Str) (hws : ∀ c ∈ t, isWS c = false) :
    ∀ (s acc : Str), pySplitAux (t ++ s) acc = pySplitAux s (t.reverse ++ acc) := by
  induction t with
  | nil => intro s acc; simp
  | cons c t ih =>
    intro s acc
    have hc : isWS c = false := hws c (by simp)
    have ht : ∀ d ∈ t, isWS d = false := fun d hd => hws d (by simp [hd])
    simp only [List.cons_append, pySplitAux, hc, Bool.false_eq_true, if_false]
    show pySplitAux (t ++ s) (c :: acc) = _
    rw [ih ht s (c :: acc)]
    simp [List.append_assoc]

theorem pySplit_token (t : Str) (ht : t ≠ []) (hws : ∀ c ∈ t, isWS c = false) :
    pySplit t = [t] := by
  unfold pySplit
  have h := pySplitAux_noWS t hws [] []
  rw [List.append_nil] at h
  rw [h]
  simp [pySplitAux, ht]

theorem pySplit_token_sep (t r : Str) (ht : t ≠ []) (hws : ∀ c ∈ t, isWS c = false)
    (sep : Char) (hsep : isWS sep = true) :
    pySplit (t ++ sep :: r) = t :: pySplit r := by
  unfold pySplit
  rw [pySplitAux_noWS t hws (sep :: r) []]
  simp [pySplitAux, hsep, ht]

theorem pySplitAux_valid : ∀ (s acc : Str), (∀ c ∈ acc, isWS c = false) →
    ∀ tok ∈ pySplitAux s acc, ValidTok tok := by
  intro s
  induction s with
  | nil =>
    intro acc hacc tok htok
    by_cases h0 : acc.isEmpty
    · simp [pySplitAux, h0] at htok
    · simp [pySplitAux, h0] at htok
      subst htok
      refine ⟨by simpa using fun h => h0 (by simp [h]), ?_⟩
      intro c hc
      exact hacc c (by simpa using hc)
  | cons c s ih =>
    intro acc hacc tok htok
    by_cases hc : isWS c
    · by_cases h0 : acc.isEmpty
      · simp [pySplitAux, hc, h0] at htok
        exact ih [] (by simp) tok htok
      · simp [pySplitAux, hc, h0] at htok
        rcases htok with h | h
        · subst h
          refine ⟨by simpa using fun h => h0 (by simp [h]), ?_⟩
          intro d hd
          exact hacc d (by simpa using hd)
        · exact ih [] (by simp) tok h
    · simp [pySplitAux, hc] at htok
      refine ih (c :: acc) ?_ tok htok
      intro d hd
      rcases List.mem_cons.mp hd with h | h
      · subst h; simpa using hc
      · exact hacc d h

theorem pySplit_valid (s : Str) : ∀ tok ∈ pySplit s, ValidTok tok :=
  pySplitAux_valid s [] (by simp)

theorem pySplit_joinTokens : ∀ ts : List Str, (∀ t ∈ ts, ValidTok t) →
    pySplit (joinTokens ts) = ts := by
  intro ts
  induction ts with
  | nil => intro _; simp [joinTokens, pySplit, pySplitAux]
  | cons t ts ih =>
    intro h
    cases ts with
    | nil =>
      have ht := h t (by simp)
      simpa [joinTokens] using pySplit_token t ht.1 ht.2
    | cons t2 ts2 =>
      have ht := h t (by simp)
      rw [joinTokens, pySplit_token_sep t _ ht.1 ht.2 ' ' (by decide)]
      rw [ih (fun u hu => h u (by simp [hu]))]

theorem joinStrs_append (a b : List Str) :
    joinStrs (a ++ b) = joinStrs a ++ joinStrs b := by
  induction a with
  | nil => simp [joinStrs]
  | cons s ss ih => simp [joinStrs, ih]

theorem chunkGo_tag (maxT : Nat) : ∀ (els : List Element) (curT curH : List Str)
    (cnt : Nat), ∀ c ∈ chunkGo maxT els curT curH cnt, c.tag = divStr := by
  intro els
  induction els with
  | nil =>
    intro curT curH cnt c hc
    by_cases h0 : curT.isEmpty <;> simp [chunkGo, h0, mkChunk] at hc
    · subst hc; rfl
  | cons el rest ih =>
    intro curT curH cnt c hc
    by_cases ht : (pySplit el.text).isEmpty
    · rw [chunkGo, if_pos ht] at hc
      exact ih _ _ _ c hc
    · by_cases hcond : maxT < cnt + (pySplit el.text).length ∧ ¬curT.isEmpty
      · rw [chunkGo, if_neg (by simp [ht]), if_pos hcond] at hc
        rcases List.mem_cons.mp hc with rfl | hc'
        · rfl
        · exact ih _ _ _ c hc'
      · rw [chunkGo, if_neg (by simp [ht]), if_neg hcond] at hc
        exact ih _ _ _ c hc

theorem chunkGo_html (maxT : Nat) : ∀ (els : List Element) (curT curH : List Str)
    (cnt : Nat), (∀ el ∈ els, ¬(pySplit el.text).isEmpty) →
    (curT.isEmpty → curH = []) →
    joinStrs ((chunkGo maxT els curT curH cnt).map Chunk.html)
      = joinStrs curH ++ joinStrs (els.map Element.html) := by
  intro els
  induction els with
  | nil =>
    intro curT curH cnt _ hemp
    by_cases h0 : curT.isEmpty
    · simp [chunkGo, h0, hemp h0, joinStrs]
    · simp [chunkGo, h0, mkChunk, joinStrs]
  | cons el rest ih =>
    intro curT curH cnt hne hemp
    have ht : ¬(pySplit el.text).isEmpty := hne el (by simp)
    have hrest : ∀ e ∈ rest, ¬(pySplit e.text).isEmpty :=
      fun e he => hne e (by simp [he])
    by_cases hcond : maxT < cnt + (pySplit el.text).length ∧ ¬curT.isEmpty
    · rw [chunkGo, if_neg (by simp [ht]), if_pos hcond]
      have hrec := ih (pySplit el.text) [el.html] (pySplit el.text).length hrest
        (fun h => absurd h ht)
      simp only [List.map_cons, joinStrs, hrec, mkChunk]
      simp [joinStrs, List.append_assoc]
    · rw [chunkGo, if_neg (by simp [ht]), if_neg hcond]
      have hrec := ih (curT ++ pySplit el.text) (curH ++ [el.html])
        (cnt + (pySplit el.text).length) hrest
        (fun h => absurd (by simpa using h) (by simp [List.isEmpty_iff] at ht; simp [ht]))
      rw [hrec, joinStrs_append]
      simp [joinStrs, List.append_assoc]

theorem chunkGo_tokens (maxT : Nat) : ∀ (els : List Element) (curT curH : List Str)
    (cnt : Nat), (∀ t ∈ curT, ValidTok t) →
    List.flatten ((chunkGo maxT els curT curH cnt).map (fun c => pySplit c.text))
      = curT ++ List.flatten (els.map (fun el => pySplit el.text)) := by
  intro els
  induction els with
  | nil =>
    intro curT curH cnt hval
    by_cases h0 : curT.isEmpty
    · simp [chunkGo, h0]
      simp [List.isEmpty_iff] at h0
      simp [h0]
    · simp [chunkGo, h0, mkChunk, pySplit_joinTokens curT hval]
  | cons el rest ih =>
    intro curT curH cnt hval
    by_cases ht : (pySplit el.text).isEmpty
    · rw [chunkGo, if_pos ht]
      rw [ih _ _ _ hval]
      simp [List.isEmpty_iff] at ht
      simp [ht]
    · by_cases hcond : maxT < cnt + (pySplit el.text).length ∧ ¬curT.isEmpty
      · rw [chunkGo, if_neg (by simp [ht]), if_pos hcond]
        simp only [List.map_cons, List.flatten, mkChunk]
        rw [pySplit_joinTokens curT hval,
          ih (pySplit el.text) [el.html] _ (pySplit_valid el.text)]
      · rw [chunkGo, if_neg (by simp [ht]), if_neg hcond]
        rw [ih (curT ++ pySplit el.text) _ _ ?_]
        · simp [List.append_assoc]
        · intro t htt
          rcases List.mem_append.mp htt with h | h
          · exact hval t h
          · exact pySplit_valid el.text t h

theorem chunkGo_bound (maxT : Nat) (S : List Element) :
    ∀ (els : List Element) (curT curH : List Str) (cnt : Nat),
    (∀ el ∈ els, el ∈ S) →
    (∀ t ∈ curT, ValidTok t) →
    cnt = curT.length →
    (curT.isEmpty → curH = []) →
    (¬curT.isEmpty → curT.length ≤ maxT ∨
       ∃ el ∈ S, maxT < (pySplit el.text).length ∧
         curT = pySplit el.text ∧ curH = [el.html]) →
    ∀ c ∈ chunkGo maxT els curT curH cnt,
      (pySplit c.text).length ≤ maxT ∨
      ∃ el ∈ S, maxT < (pySplit el.text).length ∧
        c = ⟨joinTokens (pySplit el.text), el.html, divStr⟩ := by
  intro els
  induction els with
  | nil =>
    intro curT curH cnt _ hval _ _ hacc c hc
    by_cases h0 : curT.isEmpty
    · simp [chunkGo, h0] at hc
    · simp [chunkGo, h0, mkChunk] at hc
      subst hc
      rcases hacc h0 with h | ⟨el, helS, hover, hT, hH⟩
      · left
        rw [pySplit_joinTokens curT hval]
        simpa using h
      · right
        exact ⟨el, helS, hover, by simp [hT, hH, joinStrs]⟩
  | cons el rest ih =>
    intro curT curH cnt hS hval hcnt hemp hacc c hc
    have helS : el ∈ S := hS el (by simp)
    have hrestS : ∀ e ∈ rest, e ∈ S := fun e he => hS e (by simp [he])
    by_cases ht : (pySplit el.text).isEmpty
    · rw [chunkGo, if_pos ht] at hc
      exact ih _ _ _ hrestS hval hcnt hemp hacc c hc
    · have htne : pySplit el.text ≠ [] := by simpa [List.isEmpty_iff] using ht
      by_cases hcond : maxT < cnt + (pySplit el.text).length ∧ ¬curT.isEmpty
      · rw [chunkGo, if_neg (by simp [ht]), if_pos hcond] at hc
        rcases List.mem_cons.mp hc with rfl | hc'
        · rcases hacc hcond.2 with h | ⟨e2, he2S, hover, hT, hH⟩
          · left
            rw [mkChunk]
            rw [pySplit_joinTokens curT hval]
            simpa using h
          · right
            exact ⟨e2, he2S, hover, by simp [mkChunk, hT, hH, joinStrs]⟩
        · refine ih _ _ _ hrestS (pySplit_valid el.text) rfl
            (fun h => absurd h ht) ?_ c hc'
          intro _
          by_cases hle : (pySplit el.text).length ≤ maxT
          · exact Or.inl hle
          · exact Or.inr ⟨el, helS, by omega, rfl, rfl⟩
      · rw [chunkGo, if_neg (by simp [ht]), if_neg hcond] at hc
        by_cases h0 : curT.isEmpty
        · have hT0 : curT = [] := by simpa [List.isEmpty_iff] using h0
          have hH0 : curH = [] := hemp h0
          refine ih _ _ _ hrestS ?_ ?_ (fun h => by simp [hT0, htne] at h) ?_ c hc
          · intro t htm
            rcases List.mem_append.mp htm with h | h
            · exact hval t h
            · exact pySplit_valid el.text t h
          · simp [hcnt, hT0]
          · intro _
            by_cases hle : (pySplit el.text).length ≤ maxT
            · exact Or.inl (by simp [hT0, hle])
            · exact Or.inr ⟨el, helS, by omega, by simp [hT0], by simp [hH0]⟩
        · have hle : cnt + (pySplit el.text).length ≤ maxT := by
            rcases Decidable.not_and_iff_or_not.mp hcond with h | h
            · omega
            · exact absurd h0 (by simpa using h)
          refine ih _ _ _ hrestS ?_ ?_ (fun h => by simp [htne] at h) ?_ c hc
          · intro t htm
            rcases List.mem_append.mp htm with h | h
            · exact hval t h
            · exact pySplit_valid el.text t h
          · simp [hcnt]
          · intro _
            left
            simp only [List.length_append]
            omega

theorem chunkGo_oversized_self (maxT : Nat) (el : Element)
    (hover : maxT < (pySplit el.text).length) :
    ∀ els : List Element,
      (⟨joinTokens (pySplit el.text), el.html, divStr⟩ : Chunk) ∈
        chunkGo maxT els (pySplit el.text) [el.html] (pySplit el.text).length := by
  have hne : ¬(pySplit el.text).isEmpty := by
    intro h
    rw [List.isEmpty_iff] at h
    rw [h] at hover
    simp at hover
  intro els
  induction els with
  | nil =>
    simp [chunkGo, hne, mkChunk, joinStrs]
  | cons e rest ih =>
    by_cases hte : (pySplit e.text).isEmpty
    · rw [chunkGo, if_pos hte]
      exact ih
    · have hcond : maxT < (pySplit el.text).length + (pySplit e.text).length ∧
          ¬(pySplit el.text).isEmpty := ⟨by omega, hne⟩
      rw [chunkGo, if_neg (by simp [hte]), if_pos hcond]
      have hmk : mkChunk (pySplit el.text) [el.html]
          = (⟨joinTokens (pySplit el.text), el.html, divStr⟩ : Chunk) := by
        simp [mkChunk, joinStrs]
      rw [hmk]
      exact List.mem_cons_self _ _

theorem chunkGo_oversized_mem (maxT : Nat) :
    ∀ (els : List Element) (curT curH : List Str) (cnt : Nat),
    cnt = curT.length → (curT.isEmpty → curH = []) →
    ∀ el ∈ els, maxT < (pySplit el.text).length →
    (⟨joinTokens (pySplit el.text), el.html, divStr⟩ : Chunk) ∈
      chunkGo maxT els curT curH cnt := by
  intro els
  induction els with
  | nil => simp
  | cons e rest ih =>
    intro curT curH cnt hcnt hemp el hel hover
    rcases List.mem_cons.mp hel with rfl | hel'
    · have hne : ¬(pySplit el.text).isEmpty := by
        intro h
        rw [List.isEmpty_iff] at h
        rw [h] at hover
        simp at hover
      by_cases h0 : curT.isEmpty
      · have hT0 : curT = [] := by simpa [List.isEmpty_iff] using h0
        have hH0 : curH = [] := hemp h0
        have hcond : ¬(maxT < cnt + (pySplit el.text).length ∧ ¬curT.isEmpty) := by
          simp [h0]
        rw [chunkGo, if_neg (by simp [hne]), if_neg hcond]
        have := chunkGo_oversized_self maxT el hover rest
        simpa [hT0, hH0, hcnt] using this
      · have hcond : maxT < cnt + (pySplit el.text).length ∧ ¬curT.isEmpty :=
          ⟨by omega, h0⟩
        rw [chunkGo, if_neg (by simp [hne]), if_pos hcond]
        exact List.mem_cons_of_mem _ (chunkGo_oversized_self maxT el hover rest)
    · by_cases hte : (pySplit e.text).isEmpty
      · rw [chunkGo, if_pos hte]
        exact ih curT curH cnt hcnt hemp el hel' hover
      · have htene : pySplit e.text ≠ [] := by simpa [List.isEmpty_iff] using hte
        by_cases hcond : maxT < cnt + (pySplit e.text).length ∧ ¬curT.isEmpty
        · rw [chunkGo, if_neg (by simp [hte]), if_pos hcond]
          refine List.mem_cons_of_mem _ ?_
          exact ih _ _ _ rfl (fun h => absurd h hte) el hel' hover
        · rw [chunkGo, if_neg (by simp [hte]), if_neg hcond]
          refine ih _ _ _ ?_ (fun h => by simp [htene] at h) el hel' hover
          simp [hcnt]

/-- Concrete five-token fragment text used by witnesses. -/
def textAE : Str := ['a', ' ', 'b', ' ', 'c', ' ', 'd', ' ', 'e']

/-- Concrete fragment used by witnesses. -/
def elemAE : Element := ⟨textAE, ['x'], ['p']⟩

/-- C2: for every fragment sequence (each fragment satisfying the spec's
Fragment invariant of at least 5 whitespace tokens) and every maxTokens ≥ 1,
concatenating the assembler's chunks in order reproduces the inputs exactly:
the concatenation of the chunks' markup strings equals the concatenation of
the fragments' markup strings, and the concatenation of the whitespace
tokenizations of the chunks' texts equals the concatenation of the
fragments' token sequences. -/
theorem chunk_assembler_roundtrip (elements : List Element) (maxTokens : Nat)
    (hmax : 1 ≤ maxTokens)
    (hfrag : ∀ el ∈ elements, 5 ≤ (pySplit el.text).length) :
    joinStrs ((chunk_elements_by_tokens elements maxTokens).map Chunk.html)
      = joinStrs (elements.map Element.html) ∧
    List.flatten ((chunk_elements_by_tokens elements maxTokens).map
        (fun c => pySplit c.text))
      = List.flatten (elements.map (fun el => pySplit el.text)) := by
  have hne : ∀ el ∈ elements, ¬(pySplit el.text).isEmpty := by
    intro el hel h
    rw [List.isEmpty_iff] at h
    have := hfrag el hel
    rw [h] at this
    simp at this
  constructor
  · have h := chunkGo_html maxTokens elements [] [] 0 hne (fun _ => rfl)
    simpa [chunk_elements_by_tokens, joinStrs] using h
  · have h := chunkGo_tokens maxTokens elements [] [] 0 (by simp)
    simpa [chunk_elements_by_tokens] using h

/-- Closed instance of `chunk_assembler_roundtrip` at a concrete input. -/
theorem chunk_assembler_roundtrip_witness :
    joinStrs ((chunk_elements_by_tokens [elemAE] 1).map Chunk.html)
      = joinStrs ([elemAE].map Element.html) ∧
    List.flatten ((chunk_elements_by_tokens [elemAE] 1).map
        (fun c => pySplit c.text))
      = List.flatten ([elemAE].map (fun el => pySplit el.text)) :=
  chunk_assembler_roundtrip [elemAE] 1 (by decide) (by decide)

/-- C3: for every fragment sequence and maxTokens ≥ 1, every chunk's
whitespace token count is at most maxTokens except a chunk that is exactly
one fragment whose own token count exceeds maxTokens; and every such
oversized fragment forms a chunk by itself (never split). -/
theorem chunk_token_budget (elements : List Element) (maxTokens : Nat)
    (hmax : 1 ≤ maxTokens) :
    (∀ c ∈ chunk_elements_by_tokens elements maxTokens,
       (pySplit c.text).length ≤ maxTokens ∨
       ∃ el ∈ elements, maxTokens < (pySplit el.text).length ∧
         c = ⟨joinTokens (pySplit el.text), el.html, divStr⟩) ∧
    (∀ el ∈ elements, maxTokens < (pySplit el.text).length →
       (⟨joinTokens (pySplit el.text), el.html, divStr⟩ : Chunk) ∈
         chunk_elements_by_tokens elements maxTokens) := by
  constructor
  · intro c hc
    exact chunkGo_bound maxTokens elements elements [] [] 0 (fun e he => he)
      (by simp) rfl (fun _ => rfl) (by simp) c hc
  · intro el hel hover
    exact chunkGo_oversized_mem maxTokens elements [] [] 0 rfl
      (fun _ => rfl) el hel hover

/-- Closed instance of `chunk_token_budget`: a five-token fragment with a
budget of 3 becomes a single oversized chunk by itself. -/
theorem chunk_token_budget_witness :
    (⟨joinTokens (pySplit elemAE.text), elemAE.html, divStr⟩ : Chunk) ∈
      chunk_elements_by_tokens [elemAE] 3 :=
  (chunk_token_budget [elemAE] 3 (by decide)).2 elemAE (by decide) (by decide)

/-- C9: every chunk produced by the Chunk Assembler carries the fixed tag
label "div", never a label inherited from a constituent fragment. -/
theorem chunk_tag_generic (elements : List Element) (maxTokens : Nat) :
    ∀ c ∈ chunk_elements_by_tokens elements maxTokens, c.tag = divStr :=
  fun c hc => chunkGo_tag maxTokens elements [] [] 0 c hc

/-- Closed instance of `chunk_tag_generic` at a concrete chunk. -/
theorem chunk_tag_generic_witness :
    (⟨textAE, ['x'], divStr⟩ : Chunk).tag = divStr :=
  chunk_tag_generic [elemAE] 500 ⟨textAE, ['x'], divStr⟩ (by decide)

mutual

theorem subtreeElems_trans : ∀ (n b : Node), b ∈ subtreeElems n →
    ∀ d ∈ rootDescendants b, d ∈ subtreeElems n
  | .textNode s => by simp [subtreeElems]
  | .elem name cs => by
    intro b hb d hd
    rw [subtreeElems] at hb ⊢
    rcases List.mem_cons.mp hb with rfl | hb'
    · exact List.mem_cons_of_mem _ (by simpa [rootDescendants] using hd)
    · exact List.mem_cons_of_mem _ (descendantsL_trans cs b hb' d hd)

theorem descendantsL_trans : ∀ (ns : List Node) (b : Node), b ∈ descendantsL ns →
    ∀ d ∈ rootDescendants b, d ∈ descendantsL ns
  | [] => by simp [descendantsL]
  | n :: ns => by
    intro b hb d hd
    rw [descendantsL] at hb ⊢
    rcases List.mem_append.mp hb with h | h
    · exact List.mem_append_left _ (subtreeElems_trans n b h d hd)
    · exact List.mem_append_right _ (descendantsL_trans ns b h d hd)

end

/-- C4: every fragment emitted by the Fragment Extractor has non-empty text
with at least 5 whitespace-separated tokens; no fragment below this floor is
constructed. -/
theorem fragment_token_floor (soup : Node) :
    ∀ fr ∈ extract_elements soup, fr.text ≠ [] ∧ 5 ≤ (pySplit fr.text).length := by
  intro fr hfr
  simp only [extract_elements, extractFrom] at hfr
  rcases List.mem_filterMap.mp hfr with ⟨tag, _, hvis⟩
  simp only [visitElement] at hvis
  split at hvis
  · simp at hvis
  · split at hvis
    · simp at hvis
    · split at hvis
      · simp at hvis
      · rename_i hbl hemp hlen
        rcases Option.some.inj hvis with rfl
        refine ⟨by simpa [List.isEmpty_iff] using hemp, ?_⟩
        show 5 ≤ (pySplit (getText tag)).length
        omega

/-- Markup of the concrete paragraph node used by witnesses. -/
def pMarkup : Str :=
  ['<', 'p', '>', 'a', ' ', 'b', ' ', 'c', ' ', 'd', ' ', 'e', '<', '/', 'p', '>']

/-- A concrete soup: an html element containing one paragraph of five words. -/
def soup0 : Node := .elem ['h', 't', 'm', 'l'] [.elem ['p'] [.textNode textAE]]

/-- Closed instance of `fragment_token_floor` at a concrete soup and fragment. -/
theorem fragment_token_floor_witness :
    (⟨textAE, pMarkup, ['p']⟩ : Element).text ≠ [] ∧
    5 ≤ (pySplit (⟨textAE, pMarkup, ['p']⟩ : Element).text).length :=
  fragment_token_floor soup0 ⟨textAE, pMarkup, ['p']⟩ (by decide)

/-- C5: no fragment is emitted for a blacklisted element, yet the subtree of
a blacklisted element is not pruned: any non-blacklisted element below a
blacklisted one in the traversal is still visited and emitted whenever its
normalized text meets the 5-token floor. -/
theorem blacklist_skip_no_prune (soup : Node) :
    (∀ fr ∈ extract_elements soup, fr.tag ∉ blacklist) ∧
    (∀ b d : Node, b ∈ rootDescendants (bodyOf soup) → nodeName b ∈ blacklist →
       d ∈ rootDescendants b → nodeName d ∉ blacklist →
       ¬(getText d).isEmpty → 5 ≤ (pySplit (getText d)).length →
       (⟨getText d, serialize d, nodeName d⟩ : Element) ∈ extract_elements soup) := by
  constructor
  · intro fr hfr
    simp only [extract_elements, extractFrom] at hfr
    rcases List.mem_filterMap.mp hfr with ⟨tag, _, hvis⟩
    simp only [visitElement] at hvis
    split at hvis
    · simp at hvis
    · split at hvis
      · simp at hvis
      · split at hvis
        · simp at hvis
        · rename_i hbl _ _
          rcases Option.some.inj hvis with rfl
          simpa using hbl
  · intro b d hb hbbl hd hdbl hdne hdlen
    have hdmem : d ∈ rootDescendants (bodyOf soup) := by
      cases hbody : bodyOf soup with
      | textNode s => rw [hbody] at hb; simp [rootDescendants] at hb
      | elem name cs =>
        rw [hbody] at hb
        exact descendantsL_trans cs b (by simpa [rootDescendants] using hb) d hd
    simp only [extract_elements, extractFrom]
    refine List.mem_filterMap.mpr ⟨d, hdmem, ?_⟩
    simp only [visitElement]
    rw [if_neg hdbl, if_neg (by simpa using hdne), if_neg (by omega)]

/-- A concrete soup whose paragraph sits inside a blacklisted script element. -/
def soupB : Node :=
  .elem ['h', 't', 'm', 'l'] [.elem scriptStr [.elem ['p'] [.textNode textAE]]]

/-- Closed instance of `blacklist_skip_no_prune`: the paragraph inside the
script element is still extracted. -/
theorem blacklist_skip_no_prune_witness :
    (⟨textAE, pMarkup, ['p']⟩ : Element) ∈ extract_elements soupB :=
  (blacklist_skip_no_prune soupB).2
    (.elem scriptStr [.elem ['p'] [.textNode textAE]])
    (.elem ['p'] [.textNode textAE])
    (List.Mem.head _) (by decide) (List.Mem.head _) (by decide) (by decide)
    (by decide)

theorem getD_replicate {α : Type} (n i : Nat) (a : α) :
    (List.replicate n a).getD i a = a := by
  by_cases h : i < n
  · rw [List.getD_eq_getElem _ a (by simpa using h)]
    simp
  · exact List.getD_eq_default _ a (by simpa using Nat.le_of_not_lt h)

theorem formatLoop_eq : ∀ (docs : List Str) (metas : List (Option Meta))
    (dists : List Int) (i : Nat), i + docs.length ≤ dists.length →
    ∃ rs, formatLoop docs metas dists i = .ok rs ∧ rs.length = docs.length ∧
      ∀ k, k < docs.length →
        rs.getD k emptyResult = ⟨docs.getD k [],
          metaHtml (metas.getD (i + k) none),
          metaTag (metas.getD (i + k) none), dists.getD (i + k) 0⟩ := by
  intro docs
  induction docs with
  | nil =>
    intro metas dists i _
    exact ⟨[], rfl, rfl, fun k hk => absurd hk (by simp)⟩
  | cons doc docs ih =>
    intro metas dists i hlen
    have hi : i < dists.length := by
      simp only [List.length_cons] at hlen
      omega
    have hget : dists.get? i = some (dists.getD i 0) := by
      rw [List.getD_eq_getElem _ 0 hi]
      exact List.get?_eq_getElem? .. ▸ (by simp [List.getElem?_eq_getElem hi])
    rcases ih metas dists (i + 1) (by simp only [List.length_cons] at hlen; omega)
      with ⟨rs, hrs, hlenrs, hspec⟩
    refine ⟨⟨doc, metaHtml (metas.getD i none), metaTag (metas.getD i none),
      dists.getD i 0⟩ :: rs, ?_, by simp [hlenrs], ?_⟩
    · rw [formatLoop, hget, hrs]
    · intro k hk
      cases k with
      | zero => simp
      | succ k2 =>
        simp only [List.getD_cons_succ]
        have harith : i + (k2 + 1) = i + 1 + k2 := by omega
        rw [harith]
        exact hspec k2 (by simpa using hk)

theorem formatLoop_spec : ∀ (docs : List Str) (metas : List (Option Meta))
    (dists : List Int) (i : Nat) (rs : List SearchResult),
    formatLoop docs metas dists i = .ok rs →
    rs.length = docs.length ∧
    ∀ k, k < rs.length →
      rs.getD k emptyResult = ⟨docs.getD k [],
        metaHtml (metas.getD (i + k) none),
        metaTag (metas.getD (i + k) none), dists.getD (i + k) 0⟩ := by
  intro docs
  induction docs with
  | nil =>
    intro metas dists i rs h
    rw [formatLoop] at h
    rcases Except.ok.inj h with rfl
    exact ⟨rfl, fun k hk => absurd hk (by simp)⟩
  | cons doc docs ih =>
    intro metas dists i rs h
    rw [formatLoop] at h
    cases hq : dists.get? i with
    | none => rw [hq] at h; exact absurd h (by simp)
    | some d =>
      rw [hq] at h
      cases hrec : formatLoop docs metas dists (i + 1) with
      | error e => rw [hrec] at h; exact absurd h (by simp)
      | ok rest =>
        rw [hrec] at h
        rcases Except.ok.inj h with rfl
        rcases ih metas dists (i + 1) rest hrec with ⟨hlen, hspec⟩
        have hd : d = dists.getD i 0 := by
          rw [List.getD_eq_getD_get?, hq]
          rfl
        refine ⟨by simp [hlen], ?_⟩
        intro k hk
        cases k with
        | zero => simp [hd]
        | succ k2 =>
          simp only [List.getD_cons_succ]
          have harith : i + (k2 + 1) = i + 1 + k2 := by omega
          rw [harith]
          exact hspec k2 (by simpa using hk)

/-- Number of metadata entries the formatter can draw on: the length of
`results["metadatas"][0]` when the key is present, 0 otherwise. -/
def metaEntryCount (qr : QueryResults) : Nat :=
  match qr.metadatas with
  | some (m :: _) => m.length
  | _ => 0

/-- C10: the response formatter is total on missing fields: a returned
document with no corresponding metadata entry gets empty-string `html` and
`tag`, and when the result set has no distances key at all every returned
score is 0. -/
theorem formatter_defaults :
    (∀ (qr : QueryResults) (rs : List SearchResult) (i : Nat),
       format_results qr = .ok rs → i < rs.length → metaEntryCount qr ≤ i →
       (rs.getD i emptyResult).html = [] ∧ (rs.getD i emptyResult).tag = []) ∧
    (∀ (qr : QueryResults) (rs : List SearchResult),
       format_results qr = .ok rs → qr.distances = none →
       ∀ r ∈ rs, r.score = 0) := by
  constructor
  · intro qr rs i hok hi hcount
    rw [format_results] at hok
    cases hdocs : qr.documents with
    | none =>
      rw [hdocs] at hok
      rcases Except.ok.inj hok with rfl
      exact absurd hi (by simp)
    | some dl =>
      rw [hdocs] at hok
      cases dl with
      | nil => exact absurd hok (by simp)
      | cons docs dtl =>
        cases hmet : qr.metadatas with
        | none =>
          rw [hmet] at hok
          cases hdist0 : qr.distances with
          | none =>
            rw [hdist0] at hok
            rcases formatLoop_spec docs _ _ 0 rs hok with ⟨_, hspec⟩
            rw [hspec i hi]
            simp [getD_replicate, metaHtml, metaTag]
          | some tl =>
            rw [hdist0] at hok
            cases tl with
            | nil => exact absurd hok (by simp)
            | cons dists ttl =>
              rcases formatLoop_spec docs _ _ 0 rs hok with ⟨_, hspec⟩
              rw [hspec i hi]
              simp [getD_replicate, metaHtml, metaTag]
        | some ml =>
          rw [hmet] at hok
          cases ml with
          | nil => exact absurd hok (by simp)
          | cons m mtl =>
            have hcount2 : m.length ≤ i := by
              simpa [metaEntryCount, hmet] using hcount
            have hnone : (m.map some).getD (0 + i) none = none := by
              refine List.getD_eq_default _ none ?_
              simpa using hcount2
            cases hdist0 : qr.distances with
            | none =>
              rw [hdist0] at hok
              rcases formatLoop_spec docs _ _ 0 rs hok with ⟨_, hspec⟩
              rw [hspec i hi, hnone]
              simp [metaHtml, metaTag]
            | some tl =>
              rw [hdist0] at hok
              cases tl with
              | nil => exact absurd hok (by simp)
              | cons dists ttl =>
                rcases formatLoop_spec docs _ _ 0 rs hok with ⟨_, hspec⟩
                rw [hspec i hi, hnone]
                simp [metaHtml, metaTag]
  · intro qr rs hok hdist r hr
    rw [format_results] at hok
    cases hdocs : qr.documents with
    | none =>
      rw [hdocs] at hok
      rcases Except.ok.inj hok with rfl
      exact absurd hr (by simp)
    | some dl =>
      rw [hdocs] at hok
      cases dl with
      | nil => exact absurd hok (by simp)
      | cons docs dtl =>
        rw [hdist] at hok
        cases hmet : qr.metadatas with
        | none =>
          rw [hmet] at hok
          rcases formatLoop_spec docs _ _ 0 rs hok with ⟨hlen, hspec⟩
          rcases List.mem_iff_get.mp hr with ⟨⟨k, hk⟩, hkr⟩
          have hkd : rs.getD k emptyResult = r := by
            rw [List.getD_eq_get _ emptyResult hk, hkr]
          rw [← hkd, hspec k hk]
          simp [getD_replicate]
        | some ml =>
          rw [hmet] at hok
          cases ml with
          | nil => exact absurd hok (by simp)
          | cons m mtl =>
            rcases formatLoop_spec docs _ _ 0 rs hok with ⟨hlen, hspec⟩
            rcases List.mem_iff_get.mp hr with ⟨⟨k, hk⟩, hkr⟩
            have hkd : rs.getD k emptyResult = r := by
              rw [List.getD_eq_get _ emptyResult hk, hkr]
            rw [← hkd, hspec k hk]
            simp [getD_replicate]

/-- Concrete query-result dict with no metadatas and no distances keys. -/
def qrDefaults : QueryResults := ⟨some [[textAE]], none, none⟩

/-- Closed instance of `formatter_defaults` at a concrete query result. -/
theorem formatter_defaults_witness :
    ((([⟨textAE, [], [], 0⟩] : List SearchResult).getD 0 emptyResult).html = [] ∧
     (([⟨textAE, [], [], 0⟩] : List SearchResult).getD 0 emptyResult).tag = []) ∧
    (⟨textAE, [], [], 0⟩ : SearchResult).score = 0 :=
  ⟨formatter_defaults.1 qrDefaults [⟨textAE, [], [], 0⟩] 0 rfl (by decide) (by decide),
   formatter_defaults.2 qrDefaults [⟨textAE, [], [], 0⟩] rfl rfl
     ⟨textAE, [], [], 0⟩ (by decide)⟩

/-- The pure part of the pipeline applied to a fetched soup (app.py lines
113-120): decompose the noise tags, extract fragments, chunk with the
default budget of 500. -/
def pipelineChunks (soup : Node) : List Chunk :=
  chunk_elements_by_tokens (extract_elements (decompose soup)) 500

/-- C7: a request missing `url` or `query` (or with either empty) gets the
400 client-error response, no fetch is attempted, and no collection is ever
created. -/
theorem missing_fields_client_error (req : SearchRequest) (env : Env)
    (h : req.url = none ∨ req.url = some [] ∨ req.query = none ∨
      req.query = some []) :
    (search_content req env).response = .clientError requiredErr ∧
    (search_content req env).fetchAttempted = false ∧
    (search_content req env).collectionCreated = false ∧
    (search_content req env).collectionExistsAtEnd = false := by
  have hcond : (strFalsy req.url || strFalsy req.query) = true := by
    rcases h with h | h | h | h <;> simp [strFalsy, h]
  rw [search_content, if_pos hcond]
  exact ⟨rfl, rfl, rfl, rfl⟩

/-- Concrete query result returned by the well-behaved environment. -/
def qr0 : QueryResults :=
  ⟨some [[textAE]], some [[⟨['u'], 0, divStr, pMarkup⟩]], some [[3]]⟩

/-- Environment for witnesses: fetch returns `soup0`, all index calls work. -/
def envOk : Env := ⟨.ok soup0, .ok (), .ok (), fun _ => .ok qr0, .ok ()⟩

/-- Closed instance of `missing_fields_client_error`. -/
theorem missing_fields_client_error_witness :
    (search_content ⟨none, some ['q']⟩ envOk).response = .clientError requiredErr ∧
    (search_content ⟨none, some ['q']⟩ envOk).fetchAttempted = false ∧
    (search_content ⟨none, some ['q']⟩ envOk).collectionCreated = false ∧
    (search_content ⟨none, some ['q']⟩ envOk).collectionExistsAtEnd = false :=
  missing_fields_client_error ⟨none, some ['q']⟩ envOk (Or.inl rfl)

/-- C6: when the fetched page yields an empty chunk sequence, the endpoint
responds 200 with an empty results list and never creates a collection. -/
theorem empty_chunks_empty_results (req : SearchRequest) (env : Env)
    (soup : Node) (u q : Str) (hu : req.url = some u) (hune : u ≠ [])
    (hq : req.query = some q) (hqne : q ≠ [])
    (hfetch : env.fetchResult = .ok soup)
    (hempty : pipelineChunks soup = []) :
    (search_content req env).response = .ok [] ∧
    (search_content req env).collectionCreated = false := by
  have hcond : (strFalsy req.url || strFalsy req.query) = false := by
    simp [strFalsy, hu, hq, List.isEmpty_iff, hune, hqne]
  rw [pipelineChunks] at hempty
  rw [search_content, if_neg (by simp [hcond]), hfetch]
  simp [hempty]

/-- A concrete soup with no content at all. -/
def soupE : Node := .elem ['h', 't', 'm', 'l'] []

/-- Environment for the empty-page witness. -/
def envE : Env := ⟨.ok soupE, .ok (), .ok (), fun _ => .ok qr0, .ok ()⟩

/-- Closed instance of `empty_chunks_empty_results`. -/
theorem empty_chunks_empty_results_witness :
    (search_content ⟨some ['u'], some ['q']⟩ envE).response = .ok [] ∧
    (search_content ⟨some ['u'], some ['q']⟩ envE).collectionCreated = false :=
  empty_chunks_empty_results ⟨some ['u'], some ['q']⟩ envE soupE ['u'] ['q']
    rfl (by decide) rfl (by decide) rfl (by decide)

/-- Valid request body used by the teardown theorems. -/
def req1 : SearchRequest := ⟨some ['u'], some ['q']⟩

/-- Environment in which the ChromaDB `query` call raises. -/
def envQFail : Env := ⟨.ok soup0, .ok (), .ok (), fun _ => .error ['q', 'f'], .ok ()⟩

/-- Environment in which the ChromaDB `delete_collection` call raises. -/
def envDFail : Env := ⟨.ok soup0, .ok (), .ok (), fun _ => .ok qr0, .error ['d', 'f']⟩

/-- Counterexample to C1 as stated, in both of its clauses.  First, on a
request whose `query` call fails after the transient collection was created,
the request completes (with a 500 response) while the collection still
exists — `delete_collection` (app.py line 158) is only reached on the
success path, there is no `finally`-style teardown.  Second, on a request
whose `delete_collection` call itself fails after a successful query, the
teardown failure is not logged and suppressed: it becomes the 500 error
shown to the caller. -/
theorem teardown_counterexample :
    ((search_content req1 envQFail).collectionCreated = true ∧
     (search_content req1 envQFail).collectionExistsAtEnd = true ∧
     (search_content req1 envQFail).response = .serverError ['q', 'f']) ∧
    ((search_content req1 envDFail).collectionCreated = true ∧
     (search_content req1 envDFail).collectionExistsAtEnd = true ∧
     (search_content req1 envDFail).response = .serverError ['d', 'f']) := by
  decide

/-- C1 (amended): the transient collection is torn down only on the success
path: once a request reaches collection creation, the collection is gone at
the end of the request exactly when `add`, `query` and `delete` all succeed;
a failure in `add` or `query` (or in `delete` itself) leaves the collection
in place, and a teardown (`delete`) failure is surfaced as the request's
500 error rather than logged and suppressed. -/
theorem teardown_success_path_only (req : SearchRequest) (env : Env)
    (soup : Node) (u q : Str) (hu : req.url = some u) (hune : u ≠ [])
    (hq : req.query = some q) (hqne : q ≠ [])
    (hfetch : env.fetchResult = .ok soup)
    (hne : pipelineChunks soup ≠ [])
    (hcreate : env.createResult = .ok ()) :
    (search_content req env).collectionCreated = true ∧
    ((search_content req env).collectionExistsAtEnd = false ↔
      env.addResult = .ok () ∧
      (∃ qr, env.queryResult (min 10 (pipelineChunks soup).length) = .ok qr) ∧
      env.deleteResult = .ok ()) ∧
    (∀ e, env.addResult = .ok () →
      (∃ qr, env.queryResult (min 10 (pipelineChunks soup).length) = .ok qr) →
      env.deleteResult = .error e →
      (search_content req env).response = .serverError e) := by
  have hcond : (strFalsy req.url || strFalsy req.query) = false := by
    simp [strFalsy, hu, hq, List.isEmpty_iff, hune, hqne]
  have hnemp : (pipelineChunks soup).isEmpty = false := by
    simpa [List.isEmpty_iff] using hne
  rw [pipelineChunks] at hnemp
  rw [search_content, if_neg (by simp [hcond]), hfetch]
  simp only [pipelineChunks]
  simp only [hnemp, Bool.false_eq_true, if_false, hcreate]
  cases hadd : env.addResult with
  | error e =>
    refine ⟨rfl, ?_, ?_⟩
    · constructor
      · intro h
        exact absurd h (by simp)
      · rintro ⟨h1, -, -⟩
        exact absurd h1 (by simp)
    · rintro e2 h1 - -
      exact absurd h1 (by simp)
  | ok u0 =>
    cases hquery : env.queryResult
        (min 10 (chunk_elements_by_tokens (extract_elements (decompose soup)) 500).length) with
    | error e =>
      refine ⟨rfl, ?_, ?_⟩
      · constructor
        · intro h
          exact absurd h (by simp)
        · rintro ⟨-, ⟨qr, h2⟩, -⟩
          exact absurd h2 (by simp)
      · rintro e2 - ⟨qr, h2⟩ -
        exact absurd h2 (by simp)
    | ok qr =>
      cases hdel : env.deleteResult with
      | error e =>
        refine ⟨rfl, ?_, ?_⟩
        · constructor
          · intro h
            exact absurd h (by simp)
          · rintro ⟨-, -, h3⟩
            exact absurd h3 (by simp)
        · rintro e2 - - h3
          rcases Except.error.inj h3 with rfl
          rfl
      | ok u1 =>
        simp only [hquery]
        cases hfmt : format_results qr with
        | error e =>
          refine ⟨rfl, by simp, ?_⟩
          rintro e2 - - h3
          exact absurd h3 (by simp)
        | ok rs =>
          refine ⟨rfl, by simp, ?_⟩
          rintro e2 - - h3
          exact absurd h3 (by simp)

/-- Closed instance of `teardown_success_path_only`: with every external
call succeeding, the collection is deleted by the end of the request. -/
theorem teardown_success_path_only_witness :
    (search_content req1 envOk).collectionExistsAtEnd = false :=
  (teardown_success_path_only req1 envOk soup0 ['u'] ['q'] rfl (by decide) rfl
    (by decide) rfl (by decide) rfl).2.1.mpr ⟨rfl, ⟨qr0, rfl⟩, rfl⟩

theorem getD_map_some (l : List Meta) (i : Nat) (h : i < l.length) :
    (l.map some).getD i none = some (l.getD i emptyMeta) := by
  rw [List.getD_eq_getElem _ none (by simpa using h),
    List.getD_eq_getElem _ emptyMeta h]
  simp

/-- C8: on a successful request (all external calls succeed, and the index
returns, per its contract, at most `min 10 chunkCount` ranked hits whose
documents and metadata are the stored chunk texts and chunk metadata, with
ascending distances), the response is 200 with at most
`min 10 chunkCount` results, ordered ascending by score, each carrying the
matched chunk's text, its markup under `html`, its tag label, and its
distance as `score`. -/
theorem results_ranked_and_bounded (req : SearchRequest) (env : Env)
    (soup : Node) (u q : Str) (qr : QueryResults) (docs : List Str)
    (metasList : List Meta) (dists : List Int)
    (hu : req.url = some u) (hune : u ≠ [])
    (hq : req.query = some q) (hqne : q ≠ [])
    (hfetch : env.fetchResult = .ok soup)
    (hne : pipelineChunks soup ≠ [])
    (hcreate : env.createResult = .ok ())
    (hadd : env.addResult = .ok ())
    (hquery : env.queryResult (min 10 (pipelineChunks soup).length) = .ok qr)
    (hdel : env.deleteResult = .ok ())
    (hdocs : qr.documents = some [docs])
    (hmetas : qr.metadatas = some [metasList])
    (hdists : qr.distances = some [dists])
    (hlenm : metasList.length = docs.length)
    (hlend : dists.length = docs.length)
    (hbound : docs.length ≤ min 10 (pipelineChunks soup).length)
    (hsorted : dists.Sorted (· ≤ ·))
    (hcorr : ∀ i, i < docs.length → ∃ j, j < (pipelineChunks soup).length ∧
       docs.getD i [] = ((pipelineChunks soup).getD j emptyChunk).text ∧
       metasList.getD i emptyMeta = ⟨u, j,
         ((pipelineChunks soup).getD j emptyChunk).tag,
         ((pipelineChunks soup).getD j emptyChunk).html⟩) :
    ∃ rs, (search_content req env).response = .ok rs ∧
      rs.length ≤ min 10 (pipelineChunks soup).length ∧
      (rs.map SearchResult.score).Sorted (· ≤ ·) ∧
      ∀ i, i < rs.length → ∃ j, j < (pipelineChunks soup).length ∧
        rs.getD i emptyResult = ⟨((pipelineChunks soup).getD j emptyChunk).text,
          ((pipelineChunks soup).getD j emptyChunk).html,
          ((pipelineChunks soup).getD j emptyChunk).tag, dists.getD i 0⟩ := by
  have hcond : (strFalsy req.url || strFalsy req.query) = false := by
    simp [strFalsy, hu, hq, List.isEmpty_iff, hune, hqne]
  have hnemp : (pipelineChunks soup).isEmpty = false := by
    simpa [List.isEmpty_iff] using hne
  rw [pipelineChunks] at hnemp hquery
  have hfr : format_results qr = formatLoop docs (metasList.map some) dists 0 := by
    rw [format_results, hdocs, hmetas, hdists]
  rcases formatLoop_eq docs (metasList.map some) dists 0 (by omega)
    with ⟨rs, hok, hlen, hspec⟩
  refine ⟨rs, ?_, ?_, ?_, ?_⟩
  · rw [search_content, if_neg (by simp [hcond]), hfetch]
    simp only [hnemp, Bool.false_eq_true, if_false, hcreate, hadd, hquery, hdel]
    simp only [hfr, hok]
  · rw [hlen]
    exact hbound
  · have hmap : rs.map SearchResult.score = dists := by
      apply List.ext_getElem (by rw [List.length_map, hlen, hlend])
      intro i h1 h2
      rw [List.getElem_map]
      have hi : i < rs.length := by simpa using h1
      have hid : i < docs.length := by rw [← hlen]; exact hi
      rw [← List.getD_eq_getElem rs emptyResult hi, hspec i hid]
      show dists.getD (0 + i) 0 = dists[i]
      rw [Nat.zero_add]
      exact List.getD_eq_getElem dists 0 (by simpa using h2)
    rw [hmap]
    exact hsorted
  · intro i hi
    have hid : i < docs.length := by rw [← hlen]; exact hi
    rcases hcorr i hid with ⟨j, hj, hdoc, hmeta⟩
    refine ⟨j, hj, ?_⟩
    have hmm : (metasList.map some).getD (0 + i) none
        = some (metasList.getD i emptyMeta) := by
      rw [Nat.zero_add]
      exact getD_map_some metasList i (by omega)
    simp only [Nat.zero_add] at hmm
    rw [hspec i hid]
    simp only [Nat.zero_add]
    rw [hmm, hmeta]
    simp only [metaHtml, metaTag]
    rw [hdoc]

/-- Closed instance of `results_ranked_and_bounded` at a concrete request. -/
theorem results_ranked_and_bounded_witness :
    ∃ rs, (search_content req1 envOk).response = .ok rs ∧
      rs.length ≤ min 10 (pipelineChunks soup0).length ∧
      (rs.map SearchResult.score).Sorted (· ≤ ·) ∧
      ∀ i, i < rs.length → ∃ j, j < (pipelineChunks soup0).length ∧
        rs.getD i emptyResult = ⟨((pipelineChunks soup0).getD j emptyChunk).text,
          ((pipelineChunks soup0).getD j emptyChunk).html,
          ((pipelineChunks soup0).getD j emptyChunk).tag,
          ([3] : List Int).getD i 0⟩ :=
  results_ranked_and_bounded req1 envOk soup0 ['u'] ['q'] qr0 [textAE]
    [⟨['u'], 0, divStr, pMarkup⟩] [3] rfl (by decide) rfl (by decide) rfl
    (by decide) rfl rfl rfl rfl rfl rfl rfl rfl rfl (by decide) (by simp)
    (by decide)
